import Mathlib

/-!
Verification of the repository-identity resolution and local-workspace
mapping layer of the `ghq` command-line tool (`commands.go`).

The embedding models each Go function over explicit data: strings are Lean
strings (inspected through their character lists), the filesystem is a map
from paths to stat results, and every side effect (cloning, updating,
logging, dying, panicking) is reified as a value of an outcome type.
-/

namespace Ghq

/-! ### Character-list string helpers (Go `strings` package semantics) -/

/-- Go `strings.Split(s, sep)` for a one-character separator, on character
lists: splits around every occurrence of `sep`; splitting the empty string
yields one empty field. -/
def goSplitList (sep : Char) : List Char → List (List Char)
  | [] => [[]]
  | c :: cs =>
    if c = sep then [] :: goSplitList sep cs
    else
      match goSplitList sep cs with
      | [] => [[c]]
      | g :: gs => (c :: g) :: gs

/-- Go `strings.Split(s, string(sep))`, returning strings. -/
def goSplit (s : String) (sep : Char) : List String :=
  (goSplitList sep s.toList).map (fun g => ⟨g⟩)

/-- Go `strings.Join(parts, "/")` — also the separator-join used for paths. -/
def joinPath : List String → String
  | [] => ""
  | [p] => p
  | p :: ps => p ++ "/" ++ joinPath ps

/-- Prefix test: `startsWithChars s p` is true when `p` is a prefix of `s`. -/
def startsWithChars : List Char → List Char → Bool
  | _, [] => true
  | [], _ :: _ => false
  | c :: cs, p :: ps => c == p && startsWithChars cs ps

/-- Go `strings.Contains(s, pat)` on character lists. -/
def containsChars (pat : List Char) : List Char → Bool
  | [] => pat.isEmpty
  | c :: cs => startsWithChars (c :: cs) pat || containsChars pat cs

/-- Go `strings.Contains` on strings. -/
def strContains (s pat : String) : Bool :=
  containsChars pat.toList s.toList

/-- The first character of a string, if any (Go `s[0]` is only defined when
the string is non-empty; indexing an empty string panics). -/
def strHead (s : String) : Option Char :=
  s.toList.head?

/-! ### Go standard library `net/url` (the fragment the program exercises)

The program resolves its input references with `url.Parse` and reads the
`Scheme`, `Host`, `Path` and `IsAbs` of the result.  The following
definitions translate the `net/url` parser of the Go releases contemporary
with this code (`parse` with `viaRequest = false`): scheme extraction,
query split, the opaque (rootless) case, authority/host extraction and
percent-unescaping of the path. -/

structure GoURL where
  scheme : String
  opaquePart : String
  host : String
  path : String
  rawQuery : String
deriving DecidableEq, Repr

/-- Go `url.IsAbs()`: the URL has a scheme. -/
def GoURL.isAbs (u : GoURL) : Bool :=
  u.scheme ≠ ""

/-- Go `net/url` internal `split(s, c, cutc)`: split around the first
occurrence of `c`; when `cutc` the separator is dropped, otherwise it stays
with the tail.  When `c` does not occur, the whole string is the first
component. -/
def goSplitOnce : List Char → Char → Bool → List Char × List Char
  | [], _, _ => ([], [])
  | c :: cs, sep, cutc =>
    if c = sep then ([], if cutc then cs else c :: cs)
    else
      let p := goSplitOnce cs sep cutc
      (c :: p.1, p.2)

/-- Go `net/url` `getscheme`: scan for `scheme:`; letters may start a
scheme, digits and `+ - .` may continue one; any other character means the
reference has no scheme; a leading `:` is an error.  Returns `none` when
there is no scheme (the rest is then the whole input). -/
def getSchemeGo (seen : List Char) : List Char → Except String (Option (List Char × List Char))
  | [] => .ok none
  | c :: rest =>
    if c.isAlpha then getSchemeGo (seen ++ [c]) rest
    else if c.isDigit || c == '+' || c == '-' || c == '.' then
      if seen.isEmpty then .ok none else getSchemeGo (seen ++ [c]) rest
    else if c = ':' then
      if seen.isEmpty then .error "missing protocol scheme"
      else .ok (some (seen, rest))
    else .ok none

/-- Hexadecimal digit test, as Go `ishex`. -/
def isHexChar (c : Char) : Bool :=
  c.isDigit || ('a' ≤ c && c ≤ 'f') || ('A' ≤ c && c ≤ 'F')

/-- Value of a hexadecimal digit, as Go `unhex`. -/
def hexVal (c : Char) : Nat :=
  if c.isDigit then c.toNat - '0'.toNat
  else if 'a' ≤ c && c ≤ 'f' then c.toNat - 'a'.toNat + 10
  else if 'A' ≤ c && c ≤ 'F' then c.toNat - 'A'.toNat + 10
  else 0

/-- Go `net/url` `unescape` (path mode): decode `%XX` escapes; a `%` not
followed by two hexadecimal digits is an error; `+` is left as-is in path
mode. -/
def goUnescape : List Char → Except String (List Char)
  | [] => .ok []
  | '%' :: a :: b :: rest =>
    if isHexChar a && isHexChar b then
      (goUnescape rest).map (fun t => Char.ofNat (16 * hexVal a + hexVal b) :: t)
    else .error "invalid URL escape"
  | ['%'] => .error "invalid URL escape"
  | ['%', _] => .error "invalid URL escape"
  | c :: rest => (goUnescape rest).map (fun t => c :: t)

/-- Go `net/url` `parseAuthority`: the host is what follows the first `@`
(or the whole authority when there is none); the userinfo before it must
unescape cleanly. -/
def goParseAuthority (authority : List Char) : Except String (List Char) :=
  if authority.contains '@' then
    let p := goSplitOnce authority '@' true
    match goUnescape p.1 with
    | .error e => .error e
    | .ok _ => .ok p.2
  else .ok authority

/-- Go `url.Parse` (via `parse` with `viaRequest = false`), for the fields
the program reads.  Steps: the `*` special case; scheme extraction and
lowering; query split at the first `?`; a rootless rest with a scheme is
opaque; a `//` prefix (not `///` when schemeless) introduces an authority,
whose host may not contain `%`; the remainder is the percent-unescaped
path. -/
def goURLParse (rawurl : String) : Except String GoURL :=
  let raw := rawurl.toList
  if raw = ['*'] then .ok ⟨"", "", "", "*", ""⟩
  else
    match getSchemeGo [] raw with
    | .error e => .error e
    | .ok res =>
      let schemeRest : List Char × List Char :=
        match res with
        | none => ([], raw)
        | some p => (p.1.map Char.toLower, p.2)
      let scheme := schemeRest.1
      let restQuery := goSplitOnce schemeRest.2 '?' true
      let rest := restQuery.1
      let rawQuery := restQuery.2
      if rest.take 1 ≠ ['/'] && scheme ≠ [] then
        .ok ⟨⟨scheme⟩, ⟨rest⟩, "", "", ⟨rawQuery⟩⟩
      else if (scheme ≠ [] || rest.take 3 ≠ ['/', '/', '/']) && rest.take 2 = ['/', '/'] then
        let authRest := goSplitOnce (rest.drop 2) '/' false
        match goParseAuthority authRest.1 with
        | .error e => .error e
        | .ok host =>
          if host.contains '%' then .error "hexadecimal escape in host"
          else
            match goUnescape authRest.2 with
            | .error e => .error e
            | .ok path => .ok ⟨⟨scheme⟩, "", ⟨host⟩, ⟨path⟩, ⟨rawQuery⟩⟩
      else
        match goUnescape rest with
        | .error e => .error e
        | .ok path => .ok ⟨⟨scheme⟩, "", "", ⟨path⟩, ⟨rawQuery⟩⟩

/-! ### Remote repository resolution (`DoGet`, lines 99–128)

`DoGet` parses its argument, dies on a parse error, defaults a non-absolute
reference to a GitHub `https` shorthand (reading `url.Path[0]`, which
panics with an index-out-of-range error when the parsed path is empty),
builds the remote repository and exits when it is not valid.  Every one of
those effects is a constructor of `ResolveOutcome`. -/

/-- Counts the non-empty segments of a URL path split on `/` — what remains
of the path once the host is removed. -/
def nonEmptySegs (path : String) : Nat :=
  ((goSplitList '/' path.toList).filter (fun g => !g.isEmpty)).length

/-- Modelled from the spec: `NewRemoteRepository` (its file is not under
`src/`) — the resolved host picks the hosting convention from a registered
table (`github.com` → git); a host not in the table is rejected rather than
guessed. -/
def newRemoteRepository (u : GoURL) : Except String GoURL :=
  if u.host = "github.com" then .ok u else .error "unknown host"

/-- Modelled from the spec: `RemoteRepository.IsValid` (its file is not
under `src/`) — the path must split into at least the `owner` and `project`
segments, i.e. have at least two non-empty segments after the host. -/
def isValidRepo (u : GoURL) : Bool :=
  2 ≤ nonEmptySegs u.path

inductive ResolveOutcome where
  /-- Death by `utils.DieIf` on a `url.Parse` error: the run aborts with failure. -/
  | dieParse (msg : String)
  /-- Reading `url.Path[0]` on an empty string: index-out-of-range panic. -/
  | panicIndex
  /-- Death by `utils.DieIf` on a `NewRemoteRepository` error: abort with failure. -/
  | dieResolve (msg : String)
  /-- The check `remote.IsValid() == false` held: log `Not a valid repository` and exit 1. -/
  | invalidRepo (u : GoURL)
  /-- The descriptor handed on to `getRemoteRepository`. -/
  | proceed (u : GoURL)
deriving DecidableEq, Repr

/-- The checks `DoGet` runs after URL defaulting (lines 119–127):
`NewRemoteRepository` with `DieIf`, then the `IsValid` gate. -/
def checkRemote (u : GoURL) : ResolveOutcome :=
  match newRemoteRepository u with
  | .error e => .dieResolve e
  | .ok r => if isValidRepo r then .proceed r else .invalidRepo r

/-- Function `DoGet`, lines 108–127: parse the argument; if the URL is not absolute,
default the scheme to `https`, the host to `github.com` and prefix the path
with `/` when its first byte is not `/` (reading that first byte panics on
an empty path); then resolve and validate the remote repository. -/
def resolveReference (argUrl : String) : ResolveOutcome :=
  match goURLParse argUrl with
  | .error e => .dieParse e
  | .ok u =>
    if u.isAbs then checkRemote u
    else if u.path = "" then .panicIndex
    else
      checkRemote
        { u with
          scheme := "https"
          host := "github.com"
          path := if strHead u.path = some '/' then u.path else "/" ++ u.path }

/-! ### The get orchestrator (`getRemoteRepository`, lines 130–160) -/

/-- Result of `os.Stat` on a path, as the program distinguishes it:
the path exists, it does not exist (`os.IsNotExist`), or the stat failed
with some other error. -/
inductive StatResult where
  | statExists
  | statNotExist
  | statOtherError
deriving DecidableEq, Repr

/-- The filesystem as the program observes it: a stat result per path. -/
def FileSystem : Type := String → StatResult

/-- A local repository record: its full path, its path relative to the
root, and the path segments. -/
structure LocalRepository where
  fullPath : String
  relPath : String
  pathParts : List String
deriving DecidableEq, Repr

/-- Modelled from the spec: `LocalRepositoryFromPathParts` (its file is not
under `src/`) — `relPath` is the parts joined by the separator and
`fullPath = root + relPath`, the spec's invariant `fullPath = root +
pathParts joined by separator`. -/
def localRepositoryFromPathParts (root : String) (parts : List String) : LocalRepository :=
  { fullPath := root ++ "/" ++ joinPath parts
    relPath := joinPath parts
    pathParts := parts }

/-- Lines 132–134: `pathParts` is the remote URL's host followed by
`strings.Split(remoteURL.Path, "/")` (whose first field is empty whenever
the path starts with `/`). -/
def getPathParts (u : GoURL) : List String :=
  u.host :: goSplit u.path '/'

/-- What one `getRemoteRepository` run does to the filesystem and the log. -/
inductive GetAction where
  /-- Log `clone` and invoke the VCS driver's clone into `path`. -/
  | clone (path : String)
  /-- Log `update` and invoke the VCS driver's update in `path`. -/
  | update (path : String)
  /-- Log `exists`; no filesystem mutation. -/
  | logExists (path : String)
  /-- Abort via `utils.PanicIf` on a stat error that is not `IsNotExist`: the run
  aborts. -/
  | fatalStat
deriving DecidableEq, Repr

/-- Function `getRemoteRepository`, lines 130–160: build the local path from the
remote URL, stat it; a missing path is cloned into, an existing one is
updated when `doUpdate` and only logged otherwise; any other stat error is
propagated with `PanicIf`. -/
def getRemoteRepository (root : String) (u : GoURL) (doUpdate : Bool) (fs : FileSystem) :
    GetAction :=
  let repo := localRepositoryFromPathParts root (getPathParts u)
  let path := repo.fullPath
  match fs path with
  | .statOtherError => .fatalStat
  | .statNotExist => .clone path
  | .statExists => if doUpdate then .update path else .logExists path

/-- Modelled from the spec: the VCS driver's effect on the filesystem —
`clone(remoteURL, destinationPath)` creates the destination path;
`update` acts inside an existing working copy and the remaining actions
mutate nothing. -/
def applyGetAction (fs : FileSystem) : GetAction → FileSystem
  | .clone p => fun q => if q = p then .statExists else fs q
  | _ => fs

/-! ### Listing (`DoList`, lines 162–219)

The walker (`walkLocalRepositories`, not under `src/`) emits the discovered
local repositories; `DoList` is modelled as a function of the emitted
sequence, each repository given by its `pathParts`. -/

/-- Modelled from the spec: `Subpaths` (its file is not under `src/`) — all
trailing subpaths of `pathParts` joined by `/`, from shortest to longest
(e.g. `github.com/alice/foo` → `foo`, `alice/foo`,
`github.com/alice/foo`). -/
def subpaths (parts : List String) : List String :=
  (List.range parts.length).map (fun i => joinPath (parts.drop (parts.length - 1 - i)))

/-- Modelled from the spec: `NonHostPath` (its file is not under `src/`) —
the path with the host segment removed. -/
def nonHostPath (parts : List String) : String :=
  joinPath parts.tail

/-- Modelled from the spec: `Matches` (its file is not under `src/`) — the
query equals the full `pathParts` joined by `/`, or equals a trailing
subpath that is unique among that repository's own subpaths. -/
def repoMatches (parts : List String) (query : String) : Bool :=
  query == joinPath parts || (subpaths parts).count query == 1

/-- The filter `DoList` installs (lines 168–181): everything on an empty
query, `Matches` in exact mode, and substring of `NonHostPath`
otherwise. -/
def listFilter (query : String) (exact : Bool) (parts : List String) : Bool :=
  if query = "" then true
  else if exact then repoMatches parts query
  else strContains (nonHostPath parts) query

/-- One `subpathCount[p] = subpathCount[p] + 1` step of the counting loop
(line 198), the count map being a total function that is `0` where Go's map
has no entry. -/
def bumpCount (m : String → Nat) (p : String) : String → Nat :=
  fun q => if q = p then m p + 1 else m q

/-- Lines 194–200: the nested loop that counts every subpath of every
listed repository. -/
def subpathCountMap (repos : List (List String)) : String → Nat :=
  repos.foldl (fun m repo => (subpaths repo).foldl bumpCount m) (fun _ => 0)

/-- Lines 202–209: for each listed repository, print the first (shortest)
subpath whose count is `1` and `break`; a repository with no such subpath
prints nothing. -/
def uniqueLines (repos : List (List String)) : List String :=
  repos.filterMap (fun repo => (subpaths repo).find? (fun p => subpathCountMap repos p == 1))

/-- Function `DoList` with `--unique` (lines 183–209): the repositories the walker
emits are filtered by the query first, and both the count map and the
output loop run over the filtered list `repos`. -/
def doListUnique (walked : List (List String)) (query : String) (exact : Bool) : List String :=
  uniqueLines (walked.filter (listFilter query exact))

/-- The unique-listing selection as the claim words it: the printed lines
still range over the filtered repositories, but each subpath's occurrence
count is taken across the whole walked set, independent of the query. -/
def doListUniqueWholeSetCounts (walked : List (List String)) (query : String) (exact : Bool) :
    List String :=
  (walked.filter (listFilter query exact)).filterMap
    (fun repo => (subpaths repo).find? (fun p => subpathCountMap walked p == 1))

/-! ### Look (`DoLook`, lines 221–257) -/

inductive LookOutcome where
  /-- Zero matches: log `No repository found`; the run continues (not
  fatal). -/
  | noRepo
  /-- One match: change directory to its full path and exec the shell. -/
  | enterShell (fullPath : String)
  /-- More than one match: log an ambiguity error and one line per
  candidate; the run continues (not fatal). -/
  | ambiguous (lines : List String)
deriving DecidableEq, Repr

/-- Function `DoLook`, lines 229–256: collect the walker's repositories matching
`name`, then switch on how many were found; each candidate line of the
ambiguous case is `"- "` followed by `strings.Join(repo.PathParts, "/")`
(line 254). -/
def doLook (walked : List LocalRepository) (name : String) : LookOutcome :=
  match walked.filter (fun r => repoMatches r.pathParts name) with
  | [] => .noRepo
  | [r] => .enterShell r.fullPath
  | rs => .ambiguous (rs.map (fun r => "- " ++ joinPath r.pathParts))

/-! ### Batch processing (`DoStarred` lines 277–295, `DoPocket` lines
336–354)

Both loops run the same body over a sequence of reference strings: parse
the URL (log and `continue` on error), build the remote repository
(`continue` on error), check validity (`continue` when invalid), and only
then run `getRemoteRepository`.  The items are processed one at a time in
source order, threading the filesystem state. -/

inductive ItemResult where
  /-- Parsing failed in `url.Parse`: log `Could not parse URL` and continue. -/
  | parseError (ref : String)
  /-- Resolution failed in `NewRemoteRepository`: log the error and continue. -/
  | resolveError (ref : String)
  /-- The check `remote.IsValid() == false` held: log `Not a valid repository`, continue. -/
  | invalid (ref : String)
  /-- The item reached `getRemoteRepository`, which performed `a`. -/
  | acted (a : GetAction)
deriving DecidableEq, Repr

/-- Whether an item stopped before reaching `getRemoteRepository`. -/
def ItemResult.isFailure : ItemResult → Bool
  | .acted _ => false
  | _ => true

/-- The shared loop body of `DoStarred` and `DoPocket` for one reference
string (no shorthand defaulting here, unlike `DoGet`). -/
def processItem (root : String) (upd : Bool) (fs : FileSystem) (ref : String) : ItemResult :=
  match goURLParse ref with
  | .error _ => .parseError ref
  | .ok u =>
    match newRemoteRepository u with
    | .error _ => .resolveError ref
    | .ok r => if isValidRepo r then .acted (getRemoteRepository root r upd fs) else .invalid ref

/-- The filesystem after one item: only a performed `GetAction` can change
it. -/
def itemEffect (fs : FileSystem) : ItemResult → FileSystem
  | .acted a => applyGetAction fs a
  | _ => fs

/-- The batch loop: items strictly one at a time, in source order, each
seeing the filesystem its predecessors left. -/
def processItems (root : String) (upd : Bool) : List String → FileSystem → List ItemResult
  | [], _ => []
  | ref :: rest, fs =>
    let r := processItem root upd fs ref
    r :: processItems root upd rest (itemEffect fs r)

/-- The filesystem state after a whole batch. -/
def batchFS (root : String) (upd : Bool) : List String → FileSystem → FileSystem
  | [], fs => fs
  | ref :: rest, fs => batchFS root upd rest (itemEffect fs (processItem root upd fs ref))

/-! ### Derived notions the theorems quantify over -/

/-- The local full path `getRemoteRepository` computes for a remote URL
(lines 132–137). -/
def localPathOf (root : String) (u : GoURL) : String :=
  (localRepositoryFromPathParts root (getPathParts u)).fullPath

/-- The outcomes in which `DoGet` rejects its reference and aborts with
failure (a parse-error death, a resolution death, or the
`Not a valid repository` exit) — the spec's `InvalidReference` family. -/
def ResolveOutcome.isRefFailure : ResolveOutcome → Bool
  | .dieParse _ => true
  | .dieResolve _ => true
  | .invalidRepo _ => true
  | _ => false

/-- Whether a batch item stops before reaching `getRemoteRepository`
(parse failure, resolution failure or an invalid repository) — a predicate
on the reference alone, since none of those three checks reads the
filesystem. -/
def itemFails (ref : String) : Bool :=
  match goURLParse ref with
  | .error _ => true
  | .ok u =>
    match newRemoteRepository u with
    | .error _ => true
    | .ok r => !isValidRepo r

/-! ## Lemmas -/

/-- Reading the count map after a run of `subpathCount[p]++` updates adds
the occurrences in the traversed list. -/
theorem foldl_bumpCount (l : List String) (m : String → Nat) (q : String) :
    (l.foldl bumpCount m) q = m q + l.count q := by
  induction l generalizing m with
  | nil => simp
  | cons p l ih =>
    simp only [List.foldl_cons, ih, bumpCount, List.count_cons]
    by_cases hqp : q = p
    · subst hqp; simp; omega
    · have : ¬ (p == q) = true := by simpa [beq_iff_eq] using fun h => hqp h.symm
      simp [hqp, this]

/-- The completed count map of `DoList` (lines 194–200) holds, at each
subpath, its number of occurrences among all subpaths of all listed
repositories. -/
theorem subpathCountMap_count (repos : List (List String)) (q : String) :
    subpathCountMap repos q = (repos.flatMap subpaths).count q := by
  suffices h : ∀ (m : String → Nat),
      (repos.foldl (fun m repo => (subpaths repo).foldl bumpCount m) m) q =
        m q + (repos.flatMap subpaths).count q by
    simpa using h (fun _ => 0)
  induction repos with
  | nil => intro m; simp
  | cons r rs ih =>
    intro m
    simp only [List.foldl_cons, ih, foldl_bumpCount, List.flatMap_cons, List.count_append]
    omega

/-- Splitting a list that starts with the separator emits a leading empty
field. -/
theorem goSplitList_sep (sep : Char) (cs : List Char) :
    goSplitList sep (sep :: cs) = [] :: goSplitList sep cs := by
  simp [goSplitList]

/-- Splitting a list free of the separator yields that list as the one
field. -/
theorem goSplitList_no_sep (sep : Char) (cs : List Char) (h : sep ∉ cs) :
    goSplitList sep cs = [cs] := by
  induction cs with
  | nil => rfl
  | cons c cs ih =>
    have hc : ¬ c = sep := fun e => h (e ▸ List.mem_cons_self c cs)
    have hrest : sep ∉ cs := fun e => h (List.mem_cons_of_mem c e)
    simp [goSplitList, hc, ih hrest]

/-- Splitting around the first separator occurrence: the separator-free
part becomes the first field. -/
theorem goSplitList_append (sep : Char) (cs rest : List Char) (h : sep ∉ cs) :
    goSplitList sep (cs ++ sep :: rest) = cs :: goSplitList sep rest := by
  induction cs with
  | nil => simpa using goSplitList_sep sep rest
  | cons c cs ih =>
    have hc : ¬ c = sep := fun e => h (e ▸ List.mem_cons_self c cs)
    have hrest : sep ∉ cs := fun e => h (List.mem_cons_of_mem c e)
    simp [goSplitList, hc, ih hrest]

/-- Prefixing a path with `/` adds only an empty field, so it does not
change the number of non-empty segments. -/
theorem nonEmptySegs_slash (p : String) : nonEmptySegs ("/" ++ p) = nonEmptySegs p := by
  have h : ("/" ++ p).toList = '/' :: p.toList := rfl
  simp [nonEmptySegs, h, goSplitList_sep]

/-- The post-defaulting checks of `DoGet` never panic: they die, reject or
proceed. -/
theorem checkRemote_ne_panic (u : GoURL) : checkRemote u ≠ .panicIndex := by
  unfold checkRemote
  cases newRemoteRepository u with
  | error e => simp
  | ok r => by_cases h : isValidRepo r <;> simp [h]

/-! ## Claims -/

/-- Claim C1: `getRemoteRepository` clones exactly when the computed local
path does not exist; when the path exists it updates under `doUpdate` and
otherwise only logs `exists` (no filesystem mutation); consequently a `get`
without `doUpdate` is idempotent — after a first call that did not die on a
stat error, the second call performs no clone and does not error, it logs
`exists`. -/
theorem get_clone_absent_update_present_idempotent
    (root : String) (u : GoURL) (upd : Bool) (fs : FileSystem) :
    (getRemoteRepository root u upd fs = .clone (localPathOf root u) ↔
      fs (localPathOf root u) = .statNotExist) ∧
    (fs (localPathOf root u) = .statExists → upd = true →
      getRemoteRepository root u upd fs = .update (localPathOf root u)) ∧
    (fs (localPathOf root u) = .statExists → upd = false →
      getRemoteRepository root u upd fs = .logExists (localPathOf root u)) ∧
    applyGetAction fs (.logExists (localPathOf root u)) = fs ∧
    (getRemoteRepository root u false fs ≠ .fatalStat →
      getRemoteRepository root u false
          (applyGetAction fs (getRemoteRepository root u false fs)) =
        .logExists (localPathOf root u)) := by
  simp only [getRemoteRepository, localPathOf]
  cases h : fs ((localRepositoryFromPathParts root (getPathParts u)).fullPath) with
  | statExists => cases upd <;> simp [h, applyGetAction]
  | statNotExist => cases upd <;> simp [h, applyGetAction]
  | statOtherError => cases upd <;> simp [h, applyGetAction]

/-- Claim C8: a stat error other than `IsNotExist` on the local path is
fatal for the run (`PanicIf` propagates it, producing `fatalStat` and
nothing else), while an `IsNotExist` result is the normal absent-path case
that leads to a clone. -/
theorem get_stat_error_fatal (root : String) (u : GoURL) (upd : Bool) (fs : FileSystem) :
    (fs (localPathOf root u) = .statOtherError ↔
      getRemoteRepository root u upd fs = .fatalStat) ∧
    (fs (localPathOf root u) = .statNotExist →
      getRemoteRepository root u upd fs = .clone (localPathOf root u)) := by
  simp only [getRemoteRepository, localPathOf]
  cases h : fs ((localRepositoryFromPathParts root (getPathParts u)).fullPath) with
  | statExists => cases upd <;> simp [h]
  | statNotExist => cases upd <;> simp [h]
  | statOtherError => cases upd <;> simp [h]

/-- Claim C10: a non-empty reference that parses as a non-absolute URL with
an empty path — `"?a=b"` — drives `DoGet`'s shorthand defaulting into
evaluating `url.Path[0]` on an empty string, an index-out-of-range panic
instead of an `InvalidReference` report; and the shorthand branch never
panics when the parsed path is non-empty. -/
theorem doGet_empty_path_panics :
    resolveReference "?a=b" = .panicIndex ∧
    goURLParse "?a=b" = .ok ⟨"", "", "", "", "a=b"⟩ ∧
    ∀ (s : String) (u : GoURL), goURLParse s = .ok u → u.isAbs = false → u.path ≠ "" →
      resolveReference s ≠ .panicIndex := by
  refine ⟨by decide, rfl, ?_⟩
  intro s u h hab hne
  simp [resolveReference, h, hab, hne, checkRemote_ne_panic]

/-- Claim C2: a non-absolute reference (no scheme) with a non-empty parsed
path is treated as GitHub shorthand — the scheme becomes `https`, the host
`github.com`, and the path is prefixed with `/` when it does not already
start with one; in particular `"alice/foo"` resolves exactly as
`"https://github.com/alice/foo"` does. -/
theorem doGet_shorthand_defaults (s : String) (u : GoURL)
    (h : goURLParse s = .ok u) (hab : u.isAbs = false) (hne : u.path ≠ "") :
    resolveReference s =
      checkRemote
        { u with
          scheme := "https"
          host := "github.com"
          path := if strHead u.path = some '/' then u.path else "/" ++ u.path } ∧
    (strHead u.path ≠ some '/' →
      resolveReference s =
        checkRemote ⟨"https", u.opaquePart, "github.com", "/" ++ u.path, u.rawQuery⟩) ∧
    resolveReference "alice/foo" = resolveReference "https://github.com/alice/foo" ∧
    resolveReference "alice/foo" = .proceed ⟨"https", "", "github.com", "/alice/foo", ""⟩ := by
  obtain ⟨sc, op, ho, pa, rq⟩ := u
  refine ⟨by simp [resolveReference, h, hab, hne], ?_, by decide, by decide⟩
  intro hs
  simp [resolveReference, h, hab, hne, hs]

theorem doGet_shorthand_defaults_witness :
    resolveReference "alice/foo" = .proceed ⟨"https", "", "github.com", "/alice/foo", ""⟩ :=
  (doGet_shorthand_defaults "alice/foo" ⟨"", "", "", "alice/foo", ""⟩ rfl (by decide)
    (by decide)).2.2.2

/-- Claim C7 counterexample: `"?a=b"` parses to a URL whose path is empty —
so it lacks two non-empty path segments — yet `DoGet` does not fail with an
`InvalidReference`-style report: it panics on `url.Path[0]`. -/
theorem invalid_reference_empty_path_not_rejected :
    goURLParse "?a=b" = .ok ⟨"", "", "", "", "a=b"⟩ ∧
    nonEmptySegs "" = 0 ∧
    (resolveReference "?a=b").isRefFailure = false ∧
    resolveReference "?a=b" = .panicIndex :=
  ⟨rfl, by decide, by decide, by decide⟩

/-- Claim C7 (amended): a reference that does not parse as a URL aborts the
run with the parse error; a parseable reference that is absolute or has a
non-empty parsed path and lacks at least two non-empty path segments is
rejected with an `InvalidReference`-style failure (never a best-guess
descriptor) — in particular `"not a url"` and
`"https://github.com/onlyowner"` are both rejected.  (The original claim is
false only for non-absolute references whose parsed path is empty, such as
`"?a=b"`, which panic instead of being reported.) -/
theorem invalid_reference_rejected (s : String) :
    (∀ e, goURLParse s = .error e → resolveReference s = .dieParse e) ∧
    (∀ u, goURLParse s = .ok u → (u.isAbs = true ∨ u.path ≠ "") → nonEmptySegs u.path < 2 →
      (resolveReference s).isRefFailure = true) ∧
    (resolveReference "not a url").isRefFailure = true ∧
    (resolveReference "https://github.com/onlyowner").isRefFailure = true := by
  refine ⟨?_, ?_, by decide, by decide⟩
  · intro e he
    simp [resolveReference, he]
  · intro u h hcase hseg
    have hlt : ¬ (2 ≤ nonEmptySegs u.path) := by omega
    cases hab : u.isAbs with
    | true =>
      simp only [resolveReference, h, hab, if_pos]
      unfold checkRemote newRemoteRepository
      by_cases hh : u.host = "github.com"
      · simp [hh, isValidRepo, hlt, ResolveOutcome.isRefFailure]
      · simp [hh, ResolveOutcome.isRefFailure]
    | false =>
      have hne : u.path ≠ "" := by
        rcases hcase with hc | hc
        · rw [hab] at hc; exact absurd hc (by simp)
        · exact hc
      have hsegs :
          nonEmptySegs (if strHead u.path = some '/' then u.path else "/" ++ u.path) =
            nonEmptySegs u.path := by
        by_cases hs : strHead u.path = some '/'
        · simp [hs]
        · simp [hs, nonEmptySegs_slash]
      simp only [resolveReference, h, hab]
      unfold checkRemote newRemoteRepository
      simp [hne, isValidRepo, hsegs, hlt, ResolveOutcome.isRefFailure]

/-- Claim C5 counterexample: for the descriptor of
`https://github.com/alice/foo`, the pathParts built by
`getRemoteRepository` are not `[host, owner, project]`: the split of the
URL path contributes a leading empty segment, and the joined full path
carries a double separator. -/
theorem pathParts_empty_segment_counterexample :
    getPathParts ⟨"https", "", "github.com", "/alice/foo", ""⟩ =
      ["github.com", "", "alice", "foo"] ∧
    getPathParts ⟨"https", "", "github.com", "/alice/foo", ""⟩ ≠
      ["github.com", "alice", "foo"] ∧
    "" ∈ getPathParts ⟨"https", "", "github.com", "/alice/foo", ""⟩ ∧
    (localRepositoryFromPathParts "/root/ghq"
        (getPathParts ⟨"https", "", "github.com", "/alice/foo", ""⟩)).fullPath =
      "/root/ghq/github.com//alice/foo" := by
  decide

/-- Claim C5 (amended): the local repository built before cloning has
`pathParts = host :: (URL path split on "/")`; for a canonical path
`/owner/project` that is `[host, "", owner, project]` — four segments whose
second is empty, not the three non-empty `[host, owner, project]` — and the
full path is the root joined with these parts by the separator, which
leaves a double separator after the host. -/
theorem pathParts_host_and_split (root sch op rq host owner project : String)
    (ho : '/' ∉ owner.toList) (hp : '/' ∉ project.toList) :
    getPathParts ⟨sch, op, host, "/" ++ owner ++ "/" ++ project, rq⟩ =
      [host, "", owner, project] ∧
    (localRepositoryFromPathParts root
        (getPathParts ⟨sch, op, host, "/" ++ owner ++ "/" ++ project, rq⟩)).fullPath =
      root ++ "/" ++ host ++ "//" ++ owner ++ "/" ++ project := by
  have hl : ("/" ++ owner ++ "/" ++ project).toList =
      '/' :: (owner.toList ++ '/' :: project.toList) := by
    simp [String.toList]
  have hsplit : getPathParts ⟨sch, op, host, "/" ++ owner ++ "/" ++ project, rq⟩ =
      [host, "", owner, project] := by
    simp only [getPathParts, goSplit, hl, goSplitList_sep,
      goSplitList_append '/' owner.toList _ ho, goSplitList_no_sep '/' project.toList hp]
    rfl
  refine ⟨hsplit, ?_⟩
  rw [hsplit]
  show root ++ "/" ++ joinPath [host, "", owner, project] =
    root ++ "/" ++ host ++ "//" ++ owner ++ "/" ++ project
  apply String.ext
  have d1 : "/".data = ['/'] := rfl
  have d2 : "//".data = ['/', '/'] := rfl
  simp [joinPath, String.data_append, d1, d2]

theorem pathParts_host_and_split_witness :
    getPathParts ⟨"https", "", "github.com", "/" ++ "alice" ++ "/" ++ "foo", ""⟩ =
      ["github.com", "", "alice", "foo"] ∧
    (localRepositoryFromPathParts "/root/ghq"
        (getPathParts ⟨"https", "", "github.com", "/" ++ "alice" ++ "/" ++ "foo", ""⟩)).fullPath =
      "/root/ghq" ++ "/" ++ "github.com" ++ "//" ++ "alice" ++ "/" ++ "foo" :=
  pathParts_host_and_split "/root/ghq" "https" "" "" "github.com" "alice" "foo"
    (by decide) (by decide)

/-- Claim C3: in unique listing mode each listed repository contributes at
most one line — the first (hence shortest, subpaths being ordered from
shortest to longest) of its subpaths whose occurrence count among all
subpaths of all listed repositories is exactly 1 — and a repository none of
whose subpaths is corpus-unique contributes no line; for
`github.com/alice/foo` and `github.com/bob/foo` the output is `alice/foo`
and `bob/foo`, not `foo`. -/
theorem unique_listing_selection (repos : List (List String)) :
    uniqueLines repos =
      repos.filterMap
        (fun repo =>
          (subpaths repo).find? (fun p => (repos.flatMap subpaths).count p == 1)) ∧
    uniqueLines [["github.com", "alice", "foo"], ["github.com", "bob", "foo"]] =
      ["alice/foo", "bob/foo"] := by
  refine ⟨?_, by decide⟩
  simp only [uniqueLines, subpathCountMap_count]

/-- Claim C4 counterexample: with repositories `github.com/alice/foo` and
`github.com/bob/foo` discovered and the query `alice`, the code counts
subpaths only over the filtered set and prints `foo`, while counting over
the whole discovered set (as the claim states) would print `alice/foo`. -/
theorem unique_listing_filtered_counts_counterexample :
    doListUnique [["github.com", "alice", "foo"], ["github.com", "bob", "foo"]] "alice" false =
      ["foo"] ∧
    doListUniqueWholeSetCounts [["github.com", "alice", "foo"], ["github.com", "bob", "foo"]]
        "alice" false = ["alice/foo"] ∧
    ("foo" : String) ≠ "alice/foo" := by
  decide

/-- Claim C4 (amended): in unique listing mode the subpath occurrence
counts are computed over the repositories retained by the query filter (the
listed set), not over the whole set the walker emits: for every query the
count used for selection is the subpath's count among the subpaths of the
filtered repositories. -/
theorem unique_listing_counts_over_filtered (walked : List (List String))
    (query : String) (exact : Bool) :
    doListUnique walked query exact =
      (walked.filter (listFilter query exact)).filterMap
        (fun repo =>
          (subpaths repo).find?
            (fun p => ((walked.filter (listFilter query exact)).flatMap subpaths).count p == 1)) ∧
    doListUnique [["github.com", "alice", "foo"], ["github.com", "bob", "foo"]] "alice" false =
      ["foo"] := by
  refine ⟨?_, by decide⟩
  simp only [doListUnique, uniqueLines, subpathCountMap_count]

/-- Claim C6 counterexample: an ambiguous `look` lists each candidate as
`"- "` followed by its root-relative path (`PathParts` joined by `/`), not
by its full path: with root `/root/ghq`, the listed line
`- github.com/alice/foo` differs from the candidate's full path
`/root/ghq/github.com/alice/foo`. -/
theorem look_ambiguous_relative_paths_counterexample :
    doLook
        [localRepositoryFromPathParts "/root/ghq" ["github.com", "alice", "foo"],
          localRepositoryFromPathParts "/root/ghq" ["github.com", "bob", "foo"]] "foo" =
      .ambiguous ["- github.com/alice/foo", "- github.com/bob/foo"] ∧
    (localRepositoryFromPathParts "/root/ghq" ["github.com", "alice", "foo"]).fullPath =
      "/root/ghq/github.com/alice/foo" ∧
    ("- github.com/alice/foo" : String) ≠
      "- " ++ (localRepositoryFromPathParts "/root/ghq"
        ["github.com", "alice", "foo"]).fullPath ∧
    ("- github.com/bob/foo" : String) ≠
      "- " ++ (localRepositoryFromPathParts "/root/ghq"
        ["github.com", "bob", "foo"]).fullPath := by
  decide

/-- Claim C6 (amended): a `look` query over the discovered repositories
distinguishes zero matches (reported, not fatal), exactly one match (the
shell is entered in that repository's full path), and more than one match
(reported as ambiguous, not fatal, listing each candidate by its
root-relative path — its `PathParts` joined by `/` — rather than its full
path). -/
theorem look_match_count_outcomes (walked : List LocalRepository) (name : String) :
    (walked.filter (fun r => repoMatches r.pathParts name) = [] →
      doLook walked name = .noRepo) ∧
    (∀ r, walked.filter (fun r => repoMatches r.pathParts name) = [r] →
      doLook walked name = .enterShell r.fullPath) ∧
    (∀ r1 r2 rs, walked.filter (fun r => repoMatches r.pathParts name) = r1 :: r2 :: rs →
      doLook walked name =
        .ambiguous ((r1 :: r2 :: rs).map (fun r => "- " ++ joinPath r.pathParts))) := by
  refine ⟨?_, ?_, ?_⟩
  · intro h; simp [doLook, h]
  · intro r h; simp [doLook, h]
  · intro r1 r2 rs h; simp [doLook, h]

/-- A failing batch item (parse, resolution or validity failure) produces
its error result without reading or changing the filesystem. -/
theorem itemFails_spec {ref : String} (h : itemFails ref = true)
    (root : String) (upd : Bool) (fs : FileSystem) :
    (processItem root upd fs ref).isFailure = true ∧
    itemEffect fs (processItem root upd fs ref) = fs := by
  cases hp : goURLParse ref with
  | error e => simp [processItem, hp, itemEffect, ItemResult.isFailure]
  | ok u =>
    cases hr : newRemoteRepository u with
    | error e => simp [processItem, hp, hr, itemEffect, ItemResult.isFailure]
    | ok r =>
      have hv : isValidRepo r = false := by
        have h2 := h
        simp [itemFails, hp, hr] at h2
        simpa using h2
      simp [processItem, hp, hr, hv, itemEffect, ItemResult.isFailure]

/-- Claim C9: in the batch loops of `DoStarred` and `DoPocket`, an item
whose URL fails to parse, fails to resolve, or is not a valid repository
aborts only that single item: the batch result is the results of the items
before it, then that item's error, then the results of the items after it,
computed from a filesystem state the failing item left untouched — and
items are processed strictly one at a time in source order. -/
theorem batch_item_failure_isolated (root : String) (upd : Bool) (fs : FileSystem)
    (xs ys : List String) (bad : String) (h : itemFails bad = true) :
    processItems root upd (xs ++ bad :: ys) fs =
      processItems root upd xs fs ++
        processItem root upd (batchFS root upd xs fs) bad ::
          processItems root upd ys (batchFS root upd xs fs) ∧
    (processItem root upd (batchFS root upd xs fs) bad).isFailure = true := by
  induction xs generalizing fs with
  | nil =>
    have hb := itemFails_spec h root upd fs
    simp [processItems, batchFS, hb.1, hb.2]
  | cons a xs ih =>
    obtain ⟨ih1, ih2⟩ := ih (itemEffect fs (processItem root upd fs a))
    refine ⟨?_, ?_⟩
    · simp only [List.cons_append, processItems, batchFS, List.append_eq]
      rw [ih1]
    · simpa [batchFS] using ih2

theorem batch_item_failure_isolated_witness :
    (processItem "/r" false
        (batchFS "/r" false ["https://github.com/a/b"] (fun _ => StatResult.statNotExist))
        "https://github.com/onlyowner").isFailure = true :=
  (batch_item_failure_isolated "/r" false (fun _ => StatResult.statNotExist)
    ["https://github.com/a/b"] ["https://github.com/c/d"] "https://github.com/onlyowner"
    (by decide)).2

end Ghq
